import Mathlib

/-!
Verification of the page-interaction layer of DoctorConnect
(`static/js/base.js`): scroll-driven header styling, the back-to-top
control, form field validation, button loading decoration and the stat
counter animation.  Each JavaScript handler is shallowly embedded as a
pure Lean function on an explicit state; nullable DOM references become
`Option`, a dereference of `null` becomes `Except.error`, and timers and
animation frames become explicit step functions that the page host would
invoke after the corresponding delay.
-/

namespace DoctorConnect

/-! ## DOMTokenList primitives

`classList.add` appends the token when absent, `classList.remove` drops
every occurrence, `classList.contains` is membership. -/

def classListAdd (cs : List String) (c : String) : List String :=
  if c ∈ cs then cs else cs ++ [c]

def classListRemove (cs : List String) (c : String) : List String :=
  cs.filter (fun x => x != c)

/-! ## Header scroll styling and back-to-top (base.js lines 24-59)

The header scroll listener is registered unconditionally and reads
`header.classList` without a null guard, so on a page with no `.header`
element every scroll event throws a `TypeError`; the model returns
`Except.error` in that case.  The listener reads
`window.pageYOffset || document.documentElement.scrollTop`. -/

def headerScrollHandler (header : Option (List String)) (pageYOffset scrollTop : Nat) :
    Except String (Option (List String)) :=
  let st := if pageYOffset ≠ 0 then pageYOffset else scrollTop
  match header with
  | none => Except.error "TypeError: cannot read classList of null"
  | some cs =>
      Except.ok (some (if st > 50 then classListAdd cs "scrolled"
                       else classListRemove cs "scrolled"))

/-- The back-to-top scroll listener (registered only when the button
exists, so it always has a concrete element). -/
def backToTopScrollHandler (cs : List String) (pageYOffset : Nat) : List String :=
  if pageYOffset > 300 then classListAdd cs "visible" else classListRemove cs "visible"

/-! ## Button loading decoration (base.js lines 246-269) -/

structure ButtonEl where
  loading : Bool
  innerHTML : String
  originalText : String
  deriving DecidableEq

/-- The markup the click handler swaps in while loading. -/
def loadingHTML : String := "<i class=\"fas fa-spinner fa-spin\"></i> Loading..."

/-- The page-ready capture loop: `button.dataset.originalText = button.innerHTML`. -/
def captureOriginal (b : ButtonEl) : ButtonEl :=
  { b with originalText := b.innerHTML }

/-- The `.btn` click listener.  Second component: whether the 2000 ms
restore timer was scheduled by this click. -/
def buttonClick (b : ButtonEl) : ButtonEl × Bool :=
  if !b.loading then
    ({ b with loading := true, innerHTML := loadingHTML }, true)
  else
    (b, false)

/-- The 2000 ms timeout callback: leave the loading state, and restore
the captured label only when `dataset.originalText` is truthy (a
non-empty string). -/
def buttonTimer (b : ButtonEl) : ButtonEl :=
  let b1 := { b with loading := false }
  if b1.originalText != "" then { b1 with innerHTML := b1.originalText } else b1

/-! ## Stat counter animation (base.js lines 281-315)

`parseInt(text.replace(/\D/g, ''))` on a text holding at least one digit
is the value of its digit subsequence; `text.replace(/\d/g, '')` keeps
the non-digits.  `animateCounter` is driven by animation frames; each
frame computes a progress clamped at 1 and writes
`Math.floor(start + (end - start) * progress) + suffix`. -/

def parseIntDigits (s : String) : Nat :=
  (s.data.filter Char.isDigit).foldl (fun n c => n * 10 + (c.toNat - 48)) 0

def suffixOf (s : String) : String :=
  String.mk (s.data.filter (fun c => !c.isDigit))

def counterProgress (elapsed : ℚ) : ℚ := min (elapsed / 2000) 1

def counterCurrent (start endv : Nat) (elapsed : ℚ) : ℤ :=
  Int.floor ((start : ℚ) + ((endv : ℚ) - (start : ℚ)) * counterProgress elapsed)

/-- One `updateCounter` frame: the text written to the element and
whether another animation frame is requested (`progress < 1`). -/
def updateCounter (startTime currentTime : ℚ) (start endv : Nat) (suffix : String) :
    String × Bool :=
  let elapsed := currentTime - startTime
  (toString (counterCurrent start endv elapsed) ++ suffix,
   decide (counterProgress elapsed < 1))

/-- State of the stat `IntersectionObserver`: the set of element ids
still being observed.  The host only delivers entries for observed
targets, so `statProcessEntry` models `unobserve` by the membership
guard. -/
structure StatObserver where
  observed : List Nat
  deriving DecidableEq

/-- Process one intersection entry; second component: whether
`animateCounter` was started for this entry. -/
def statProcessEntry (st : StatObserver) (targetId : Nat) (isIntersecting : Bool) :
    StatObserver × Bool :=
  if isIntersecting && st.observed.contains targetId then
    (⟨st.observed.filter (fun x => x != targetId)⟩, true)
  else
    (st, false)

/-! ## Basic classList lemmas -/

theorem mem_classListAdd (cs : List String) (c : String) : c ∈ classListAdd cs c := by
  unfold classListAdd
  split
  · assumption
  · exact List.mem_append_right _ (List.mem_singleton.mpr rfl)

theorem not_mem_classListRemove (cs : List String) (c : String) :
    c ∉ classListRemove cs c := by
  intro h
  have := List.of_mem_filter h
  simp at this

/-! ## Field and form validation (base.js lines 105-229)

A field element carries its `value`, its declared `type`, whether it has
the `required` attribute, its class list, and its default value (used by
`form.reset()`).  `fid` models JavaScript object identity, so the
theorems that need each field to be a distinct object assume the `fid`s
are distinct. -/

structure FieldEl where
  fid : Nat
  value : String
  ty : String
  required : Bool
  classes : List String
  defaultValue : String
  deriving DecidableEq

/-- A child of a field's parent element: the field itself, an
`.error-message` div created by `showFieldError`, or any other node. -/
inductive Node where
  | fieldN : FieldEl → Node
  | errMsg : String → Node
  | otherN : Nat → Node
  deriving DecidableEq

def isErrMsg : Node → Bool
  | Node.errMsg _ => true
  | _ => false

/-- The fields among a parent's children, in document order. -/
def fieldsOf (ns : List Node) : List FieldEl :=
  ns.filterMap fun n => match n with
    | Node.fieldN f => some f
    | _ => none

/-- First field with the given identity (a JavaScript reference lookup). -/
def findField : List Node → Nat → Option FieldEl
  | [], _ => none
  | Node.fieldN f :: rest, fid => if f.fid = fid then some f else findField rest fid
  | _ :: rest, fid => findField rest fid

/-- Mutate the field with the given identity in place. -/
def updateField (ns : List Node) (fid : Nat) (g : FieldEl → FieldEl) : List Node :=
  ns.map fun n => match n with
    | Node.fieldN f => if f.fid = fid then Node.fieldN (g f) else n
    | _ => n

/-- `parentElement.querySelector('.error-message').remove()`: drop the
first error-message child if one exists. -/
def removeFirstErr : List Node → List Node
  | [] => []
  | n :: rest => if isErrMsg n then rest else n :: removeFirstErr rest

def countErr (ns : List Node) : Nat := ns.countP isErrMsg

/-! ### The validation regexes

`emailMatch` implements the anchored regex
`^[^\s@]+@[^\s@]+\.[^\s@]+$` by full backtracking: `matchPlus p s`
returns every remainder left after `p`-chars were consumed one or more
times.  `phoneMatch` implements `^[\+]?[1-9][\d]{0,15}$`, and
`stripPhone` the `replace(/[\s\-\(\)]/g, '')` preprocessing.
JavaScript's `\s` is modelled by `Char.isWhitespace`. -/

/-- Model of JavaScript `value.trim()`: strip leading and trailing
whitespace. -/
def jsTrim (s : String) : String :=
  String.mk (((s.data.dropWhile Char.isWhitespace).reverse.dropWhile Char.isWhitespace).reverse)

def emailChar (c : Char) : Bool := !c.isWhitespace && c != '@'

def matchPlus (p : Char → Bool) : List Char → List (List Char)
  | [] => []
  | c :: rest => if p c then rest :: matchPlus p rest else []

def emailMatch (s : String) : Bool :=
  (matchPlus emailChar s.data).any fun r1 =>
    match r1 with
    | '@' :: r2 =>
        (matchPlus emailChar r2).any fun r3 =>
          match r3 with
          | '.' :: r4 => (matchPlus emailChar r4).any fun r5 => r5.isEmpty
          | _ => false
    | _ => false

def stripPhone (s : String) : String :=
  String.mk (s.data.filter fun c => !(c.isWhitespace || c == '-' || c == '(' || c == ')'))

def phoneMatch (s : String) : Bool :=
  let cs := match s.data with
    | '+' :: rest => rest
    | cs => cs
  match cs with
  | [] => false
  | d :: rest =>
      decide ('1' ≤ d) && decide (d ≤ '9') && decide (rest.length ≤ 15) &&
        rest.all fun c => decide ('0' ≤ c) && decide (c ≤ '9')

/-! ### validateField / showFieldError (lines 144-193) -/

/-- Lines 149-154: remove the field's `error` class and the first
existing `.error-message` among the parent's children. -/
def cleanedOf (ns : List Node) (fid : Nat) : List Node :=
  removeFirstErr (updateField ns fid fun g =>
    { g with classes := classListRemove g.classes "error" })

/-- Lines 184-193: add the `error` class to the field and
`appendChild` a new `.error-message` div to the parent. -/
def showFieldError (ns : List Node) (fid : Nat) (msg : String) : List Node :=
  updateField ns fid (fun g => { g with classes := classListAdd g.classes "error" })
    ++ [Node.errMsg msg]

/-- Lines 144-181, acting on the field `fid` inside its parent's
children `ns`; returns the verdict and the parent's new children. -/
def validateField (ns : List Node) (fid : Nat) : Bool × List Node :=
  match findField ns fid with
  | none => (true, ns)
  | some f =>
      let value := jsTrim f.value
      let cleaned := cleanedOf ns fid
      if f.required && value == "" then
        (false, showFieldError cleaned fid "This field is required")
      else if f.ty == "email" && value != "" && !emailMatch value then
        (false, showFieldError cleaned fid "Please enter a valid email address")
      else if f.ty == "tel" && value != "" && !phoneMatch (stripPhone value) then
        (false, showFieldError cleaned fid "Please enter a valid phone number")
      else
        (true, cleaned)

/-- The pure validation verdict of a field: the boolean `validateField`
returns, as a function of the field's value, type and required flag. -/
def fieldVerdict (f : FieldEl) : Bool :=
  let value := jsTrim f.value
  if f.required && value == "" then false
  else if f.ty == "email" && value != "" && !emailMatch value then false
  else if f.ty == "tel" && value != "" && !phoneMatch (stripPhone value) then false
  else true

/-! ### Form model (lines 105-141, 196-229)

A form's children are success banners (`.form-success` divs) and field
groups (each group a field's parent element). -/

inductive FormChild where
  | banner : FormChild
  | group : List Node → FormChild
  deriving DecidableEq

def isBanner : FormChild → Bool
  | FormChild.banner => true
  | _ => false

def bannerCount (cs : List FormChild) : Nat := cs.countP isBanner

/-- All fields of the form, in document order
(`form.querySelectorAll('input, select, textarea')`). -/
def formFields (cs : List FormChild) : List FieldEl :=
  cs.flatMap fun c => match c with
    | FormChild.group ns => fieldsOf ns
    | FormChild.banner => []

/-- Run `validateField` on the field `fid`, wherever its parent group
sits in the form. -/
def formValidateField : List FormChild → Nat → Bool × List FormChild
  | [], _ => (true, [])
  | FormChild.banner :: rest, fid =>
      let r := formValidateField rest fid
      (r.1, FormChild.banner :: r.2)
  | FormChild.group ns :: rest, fid =>
      if (findField ns fid).isSome then
        let r := validateField ns fid
        (r.1, FormChild.group r.2 :: rest)
      else
        let r := formValidateField rest fid
        (r.1, FormChild.group ns :: r.2)

/-- Lines 196-207: validate every field (no short-circuit: `forEach`
visits all fields), conjoining the verdicts. -/
def validateForm (cs : List FormChild) : Bool × List FormChild :=
  (formFields cs).foldl
    (fun acc f =>
      let r := formValidateField acc.2 f.fid
      (acc.1 && r.1, r.2))
    (true, cs)

/-- Lines 210-221: `form.insertBefore(successDiv, form.firstChild)`. -/
def showFormSuccess (cs : List FormChild) : List FormChild :=
  FormChild.banner :: cs

/-- Lines 224-229: remove the first `.form-success` if present. -/
def hideFormSuccess : List FormChild → List FormChild
  | [] => []
  | FormChild.banner :: rest => rest
  | c :: rest => c :: hideFormSuccess rest

/-- `form.reset()`: every field's value returns to its default. -/
def resetGroup (ns : List Node) : List Node :=
  ns.map fun n => match n with
    | Node.fieldN f => Node.fieldN { f with value := f.defaultValue }
    | x => x

def formReset (cs : List FormChild) : List FormChild :=
  cs.map fun c => match c with
    | FormChild.group ns => FormChild.group (resetGroup ns)
    | x => x

/-- Result of the submit listener (lines 127-140). -/
structure SubmitResult where
  children : List FormChild
  defaultPrevented : Bool
  timerScheduled : Bool
  deriving DecidableEq

/-- The submit listener: `e.preventDefault()` unconditionally; when the
form validates, show the banner and schedule the 3000 ms timer. -/
def formSubmit (cs : List FormChild) : SubmitResult :=
  let r := validateForm cs
  if r.1 then
    ⟨showFormSuccess r.2, true, true⟩
  else
    ⟨r.2, true, false⟩

/-- The 3000 ms timeout callback: `this.reset(); hideFormSuccess(this)`. -/
def formTimerFire (cs : List FormChild) : List FormChild :=
  hideFormSuccess (formReset cs)

/-! ## Claim C1: absent header and the scroll listener -/

/-- C1 (code bug): the claim says that on a page without the optional
header element every scroll event is processed without a fatal error and
the header-styling behavior is silently skipped.  The code registers the
scroll listener unconditionally and dereferences the null header, so
every scroll event throws a TypeError instead. -/
theorem header_absent_scroll_throws (pageYOffset scrollTop : Nat) :
    headerScrollHandler none pageYOffset scrollTop =
      Except.error "TypeError: cannot read classList of null" := rfl

/-- Witness for C1's theorem at a concrete scroll offset. -/
theorem header_absent_scroll_throws_witness :
    headerScrollHandler none 0 100 = Except.error "TypeError: cannot read classList of null" :=
  header_absent_scroll_throws 0 100

/-! ## Claim C2: scroll thresholds -/

/-- C2: after the scroll handlers run at offset `s`, the header element
carries the class "scrolled" iff `s > 50`, and the back-to-top element
carries the class "visible" iff `s > 300`. -/
theorem scroll_handlers_thresholds (hcs bcs : List String) (s : Nat) :
    (∃ cs', headerScrollHandler (some hcs) s s = Except.ok (some cs') ∧
      ("scrolled" ∈ cs' ↔ s > 50)) ∧
    ("visible" ∈ backToTopScrollHandler bcs s ↔ s > 300) := by
  constructor
  · refine ⟨if s > 50 then classListAdd hcs "scrolled" else classListRemove hcs "scrolled",
      ?_, ?_⟩
    · simp only [headerScrollHandler, ite_self]
    · by_cases h : s > 50
      · simp only [h, if_true, iff_true]
        exact mem_classListAdd hcs "scrolled"
      · simp only [h, if_false, iff_false]
        exact not_mem_classListRemove hcs "scrolled"
  · by_cases h : s > 300
    · simp only [backToTopScrollHandler, h, if_true, iff_true]
      exact mem_classListAdd bcs "visible"
    · simp only [backToTopScrollHandler, h, if_false, iff_false]
      exact not_mem_classListRemove bcs "visible"

/-- Witness for C2's theorem at concrete scroll offsets. -/
theorem scroll_handlers_thresholds_witness :
    "visible" ∈ backToTopScrollHandler [] 301 ∧
    ∃ cs', headerScrollHandler (some []) 60 60 = Except.ok (some cs') ∧
      ("scrolled" ∈ cs' ↔ 60 > 50) :=
  ⟨(scroll_handlers_thresholds [] [] 301).2.mpr (by decide),
   (scroll_handlers_thresholds [] [] 60).1⟩

/-! ## Claim C4: button loading state -/

/-- C4 (counterexample): for a button whose label captured at page-ready
time is the empty string, the 2000 ms timer does not restore the
captured label — the truthiness guard `if (this.dataset.originalText)`
skips restoration and the spinner markup remains. -/
theorem button_empty_label_not_restored :
    (captureOriginal ⟨false, "", ""⟩).originalText = "" ∧
    (buttonTimer (buttonClick (captureOriginal ⟨false, "", ""⟩)).1).innerHTML = loadingHTML ∧
    loadingHTML ≠ "" := by
  refine ⟨rfl, rfl, ?_⟩
  decide

/-- C4 (amended): a first click on a non-loading button enters the
loading state with the spinner label; a further click while loading
changes nothing; the 2000 ms timer exits the loading state and restores
the captured label when it is non-empty, while for an empty captured
label the spinner markup remains. -/
theorem button_loading_lifecycle (b : ButtonEl) (h : b.loading = false) :
    (buttonClick b).1.loading = true ∧
    (buttonClick b).1.innerHTML = loadingHTML ∧
    buttonClick (buttonClick b).1 = ((buttonClick b).1, false) ∧
    (buttonTimer (buttonClick b).1).loading = false ∧
    (b.originalText ≠ "" → (buttonTimer (buttonClick b).1).innerHTML = b.originalText) ∧
    (b.originalText = "" → (buttonTimer (buttonClick b).1).innerHTML = loadingHTML) := by
  have h1 : buttonClick b = ({ b with loading := true, innerHTML := loadingHTML }, true) := by
    simp [buttonClick, h]
  refine ⟨by rw [h1], by rw [h1], by rw [h1]; simp [buttonClick],
    by rw [h1]; simp only [buttonTimer]; split <;> rfl, ?_, ?_⟩
  · intro hne
    rw [h1]
    simp [buttonTimer, hne]
  · intro heq
    rw [h1]
    simp [buttonTimer, heq]

/-- Witness for C4's amended theorem at a concrete button. -/
theorem button_loading_lifecycle_witness :
    (buttonClick ⟨false, "Send", "Send"⟩).1.loading = true ∧
    (buttonTimer (buttonClick ⟨false, "Send", "Send"⟩).1).innerHTML = "Send" := by
  have h := button_loading_lifecycle ⟨false, "Send", "Send"⟩ rfl
  exact ⟨h.1, h.2.2.2.2.1 (by decide)⟩

/-! ## Claim C9: stat counter animation -/

/-- C9: a statistic element with initial text "1200+" parses to target
1200 and suffix "+", displays "0+" at elapsed 0, displays
`floor(1200 * min(elapsed / 2000, 1))` monotonically non-decreasing in
the elapsed time, lands exactly on "1200+" (and stops requesting frames)
once elapsed reaches 2000 ms, and the observer never re-animates an
element after its first qualifying visibility. -/
theorem counter_animation_1200 :
    parseIntDigits "1200+" = 1200 ∧
    suffixOf "1200+" = "+" ∧
    updateCounter 0 0 0 1200 "+" = ("0+", true) ∧
    (∀ t1 t2 : ℚ, 0 ≤ t1 → t1 ≤ t2 →
      counterCurrent 0 1200 t1 ≤ counterCurrent 0 1200 t2) ∧
    (∀ t : ℚ, 2000 ≤ t → updateCounter 0 t 0 1200 "+" = ("1200+", false)) ∧
    (∀ (st : StatObserver) (id : Nat),
      (statProcessEntry (statProcessEntry st id true).1 id true).2 = false) := by
  refine ⟨by decide, by decide, ?_, ?_, ?_, ?_⟩
  · have h1 : counterProgress (0 - 0 : ℚ) = 0 := by
      unfold counterProgress
      norm_num
    have h2 : counterCurrent 0 1200 (0 - 0 : ℚ) = 0 := by
      unfold counterCurrent
      rw [h1]
      push_cast
      norm_num
    simp only [updateCounter, h1, h2]
    decide
  · intro t1 t2 h0 h12
    unfold counterCurrent counterProgress
    apply Int.floor_le_floor
    have hdiv : t1 / 2000 ≤ t2 / 2000 := by gcongr
    have hmin : min (t1 / 2000) 1 ≤ min (t2 / 2000) 1 := min_le_min hdiv le_rfl
    push_cast
    nlinarith [hmin]
  · intro t ht
    have h1 : counterProgress (t - 0) = 1 := by
      unfold counterProgress
      rw [sub_zero]
      apply min_eq_right
      rw [le_div_iff₀ (by norm_num : (0:ℚ) < 2000)]
      linarith
    have h2 : counterCurrent 0 1200 (t - 0) = 1200 := by
      unfold counterCurrent
      rw [h1]
      push_cast
      norm_num
    simp only [updateCounter, h1, h2]
    decide
  · intro st id
    by_cases h : id ∈ st.observed
    · have h2 : ¬ id ∈ st.observed.filter (fun x => x != id) := by
        simp [List.mem_filter]
      simp [statProcessEntry, h, h2]
    · simp [statProcessEntry, h]

/-- Witness for C9's theorem: monotonicity and landing at concrete
elapsed times. -/
theorem counter_animation_1200_witness :
    counterCurrent 0 1200 1000 ≤ counterCurrent 0 1200 2500 ∧
    updateCounter 0 2500 0 1200 "+" = ("1200+", false) :=
  ⟨counter_animation_1200.2.2.2.1 1000 2500 (by norm_num) (by norm_num),
   counter_animation_1200.2.2.2.2.1 2500 (by norm_num)⟩

/-! ## Structural lemmas about validateField -/

/-- The boolean `validateField` returns is the pure verdict of the field
it was called on. -/
theorem validateField_fst (ns : List Node) (fid : Nat) (f : FieldEl)
    (h : findField ns fid = some f) :
    (validateField ns fid).1 = fieldVerdict f := by
  simp only [validateField, fieldVerdict, h]
  split_ifs <;> rfl

/-- One invocation either only cleans, or cleans and then appends a
single error message. -/
theorem validateField_snd_cases (ns : List Node) (fid : Nat) (f : FieldEl)
    (h : findField ns fid = some f) :
    (validateField ns fid).2 = cleanedOf ns fid ∨
    ∃ msg, (validateField ns fid).2 = showFieldError (cleanedOf ns fid) fid msg := by
  simp only [validateField, h]
  split_ifs <;> first
    | exact Or.inl rfl
    | exact Or.inr ⟨_, rfl⟩

/-- The verdict and resulting state, jointly: the valid exit only
cleans, each failing rule cleans and appends one message. -/
theorem validateField_cases (ns : List Node) (fid : Nat) (f : FieldEl)
    (h : findField ns fid = some f) :
    ((validateField ns fid).1 = true ∧ (validateField ns fid).2 = cleanedOf ns fid) ∨
    ((validateField ns fid).1 = false ∧
      ∃ msg, (validateField ns fid).2 = showFieldError (cleanedOf ns fid) fid msg) := by
  simp only [validateField, h]
  split_ifs <;> first
    | exact Or.inl ⟨rfl, rfl⟩
    | exact Or.inr ⟨rfl, _, rfl⟩

theorem fieldsOf_removeFirstErr (ns : List Node) :
    fieldsOf (removeFirstErr ns) = fieldsOf ns := by
  induction ns with
  | nil => rfl
  | cons n rest ih =>
      cases n <;> simp [removeFirstErr, isErrMsg, fieldsOf, List.filterMap_cons] <;>
        simpa [fieldsOf] using ih

theorem fieldsOf_append (a b : List Node) :
    fieldsOf (a ++ b) = fieldsOf a ++ fieldsOf b := by
  simp [fieldsOf, List.filterMap_append]

theorem fieldsOf_updateField (ns : List Node) (fid : Nat) (g : FieldEl → FieldEl) :
    fieldsOf (updateField ns fid g) =
      (fieldsOf ns).map (fun f => if f.fid = fid then g f else f) := by
  induction ns with
  | nil => rfl
  | cons n rest ih =>
      cases n with
      | fieldN f =>
          by_cases hf : f.fid = fid <;>
            simp [updateField, fieldsOf, List.filterMap_cons, hf] <;>
            simpa [updateField, fieldsOf] using ih
      | errMsg m => simpa [updateField, fieldsOf, List.filterMap_cons] using ih
      | otherN i => simpa [updateField, fieldsOf, List.filterMap_cons] using ih

/-- The identity-relevant core of a field: everything but its classes
(the only attribute validation mutates). -/
def coreOfF (f : FieldEl) : FieldEl := { f with classes := [] }

def coresOf (ns : List Node) : List FieldEl := (fieldsOf ns).map coreOfF

theorem coreOfF_fid (f : FieldEl) : (coreOfF f).fid = f.fid := rfl

theorem fieldVerdict_coreOfF (f : FieldEl) : fieldVerdict (coreOfF f) = fieldVerdict f := rfl

theorem coresOf_cleanedOf (ns : List Node) (fid : Nat) :
    coresOf (cleanedOf ns fid) = coresOf ns := by
  unfold coresOf cleanedOf
  rw [fieldsOf_removeFirstErr, fieldsOf_updateField, List.map_map]
  refine List.map_congr_left fun f _ => ?_
  simp only [Function.comp_apply]
  split <;> rfl

theorem coresOf_showFieldError (ns : List Node) (fid : Nat) (msg : String) :
    coresOf (showFieldError ns fid msg) = coresOf ns := by
  unfold coresOf showFieldError
  rw [fieldsOf_append, fieldsOf_updateField]
  simp only [fieldsOf, List.filterMap_cons, List.filterMap_nil, List.append_nil, List.map_map]
  refine List.map_congr_left fun f _ => ?_
  simp only [Function.comp_apply]
  split <;> rfl

theorem coresOf_validateField (ns : List Node) (fid : Nat) :
    coresOf (validateField ns fid).2 = coresOf ns := by
  cases h : findField ns fid with
  | none => simp [validateField, h]
  | some f =>
      rcases validateField_snd_cases ns fid f h with h2 | ⟨msg, h2⟩
      · rw [h2, coresOf_cleanedOf]
      · rw [h2, coresOf_showFieldError, coresOf_cleanedOf]

theorem findField_eq_find? (ns : List Node) (fid : Nat) :
    findField ns fid = (fieldsOf ns).find? (fun g => g.fid == fid) := by
  induction ns with
  | nil => rfl
  | cons n rest ih =>
      cases n with
      | fieldN f =>
          by_cases hf : f.fid = fid
          · rw [show findField (Node.fieldN f :: rest) fid = some f by simp [findField, hf]]
            simp [fieldsOf, List.filterMap_cons, List.find?_cons_of_pos, hf]
          · rw [show findField (Node.fieldN f :: rest) fid = findField rest fid by
              simp [findField, hf]]
            rw [ih]
            simp only [fieldsOf, List.filterMap_cons]
            rw [List.find?_cons_of_neg]
            simp [hf]
      | errMsg m => simpa [findField, fieldsOf, List.filterMap_cons] using ih
      | otherN i => simpa [findField, fieldsOf, List.filterMap_cons] using ih

/-- Finding by identity commutes with erasing classes. -/
theorem find?_core_congr {l1 l2 : List FieldEl}
    (h : l1.map coreOfF = l2.map coreOfF) (fid : Nat) :
    (l1.find? (fun g => g.fid == fid)).map coreOfF =
    (l2.find? (fun g => g.fid == fid)).map coreOfF := by
  induction l1 generalizing l2 with
  | nil =>
      cases l2 with
      | nil => rfl
      | cons b t2 => simp at h
  | cons a t1 ih =>
      cases l2 with
      | nil => simp at h
      | cons b t2 =>
          simp only [List.map_cons, List.cons.injEq] at h
          obtain ⟨hab, ht⟩ := h
          have hfid : a.fid = b.fid := by
            rw [← coreOfF_fid a, ← coreOfF_fid b, hab]
          by_cases hp : a.fid = fid
          · rw [List.find?_cons_of_pos _ (by simp [hp]),
              List.find?_cons_of_pos _ (by simp [← hfid, hp])]
            simp [hab]
          · rw [List.find?_cons_of_neg _ (by simp [hp]),
              List.find?_cons_of_neg _ (by simp [← hfid, hp])]
            exact ih ht

/-- With pairwise-distinct identities, finding a listed field by its own
identity returns that field. -/
theorem nodup_find?_self {l : List FieldEl} (h : (l.map FieldEl.fid).Nodup)
    {f : FieldEl} (hf : f ∈ l) :
    l.find? (fun g => g.fid == f.fid) = some f := by
  induction l with
  | nil => cases hf
  | cons a t ih =>
      rw [List.map_cons, List.nodup_cons] at h
      obtain ⟨hna, hnd⟩ := h
      rcases List.mem_cons.mp hf with rfl | hmem
      · rw [List.find?_cons_of_pos _ (by simp)]
      · by_cases hp : a.fid = f.fid
        · exact absurd (hp ▸ List.mem_map_of_mem FieldEl.fid hmem) hna
        · rw [List.find?_cons_of_neg _ (by simp [hp])]
          exact ih hnd hmem

/-! ## Error-message counting lemmas -/

theorem countErr_cons (n : Node) (rest : List Node) :
    countErr (n :: rest) = countErr rest + (if isErrMsg n then 1 else 0) :=
  List.countP_cons _ _ _

theorem countErr_updateField (ns : List Node) (fid : Nat) (g : FieldEl → FieldEl) :
    countErr (updateField ns fid g) = countErr ns := by
  unfold countErr updateField
  rw [List.countP_map]
  refine List.countP_congr fun n _ => ?_
  cases n with
  | fieldN f =>
      simp only [Function.comp_apply]
      split <;> rfl
  | errMsg m => rfl
  | otherN i => rfl

theorem countErr_append_errMsg (ns : List Node) (msg : String) :
    countErr (ns ++ [Node.errMsg msg]) = countErr ns + 1 := by
  unfold countErr
  rw [List.countP_append]
  simp [isErrMsg]

theorem countErr_removeFirstErr_of_le_one (ns : List Node) (h : countErr ns ≤ 1) :
    countErr (removeFirstErr ns) = 0 := by
  induction ns with
  | nil => rfl
  | cons n rest ih =>
      rw [countErr_cons] at h
      cases hn : isErrMsg n
      · rw [hn] at h
        simp only [Bool.false_eq_true, if_false, Nat.add_zero] at h
        rw [show removeFirstErr (n :: rest) = n :: removeFirstErr rest by
          simp [removeFirstErr, hn]]
        rw [countErr_cons, hn]
        simp [ih h]
      · rw [hn] at h
        simp only [if_true] at h
        rw [show removeFirstErr (n :: rest) = rest by simp [removeFirstErr, hn]]
        omega

theorem countErr_cleanedOf_of_le_one (ns : List Node) (fid : Nat) (h : countErr ns ≤ 1) :
    countErr (cleanedOf ns fid) = 0 := by
  unfold cleanedOf
  exact countErr_removeFirstErr_of_le_one _ (by rw [countErr_updateField]; exact h)

/-! ## Branch computation lemmas for validateField -/

theorem validateField_email_branch (ns : List Node) (fid : Nat) (f : FieldEl)
    (h : findField ns fid = some f) (hty : f.ty = "email") (hne : jsTrim f.value ≠ "") :
    validateField ns fid =
      if emailMatch (jsTrim f.value) then (true, cleanedOf ns fid)
      else (false,
        showFieldError (cleanedOf ns fid) fid "Please enter a valid email address") := by
  simp only [validateField, h]
  cases hm : emailMatch (jsTrim f.value)
  · rw [if_neg (by simp [hne]), if_pos (by simp [hty, hne, hm])]
    simp [hm]
  · rw [if_neg (by simp [hne]), if_neg (by simp [hm]),
      if_neg (by simp [hty, show (("email":String) == "tel") = false from rfl])]
    simp [hm]

theorem validateField_tel_branch (ns : List Node) (fid : Nat) (f : FieldEl)
    (h : findField ns fid = some f) (hty : f.ty = "tel") (hne : jsTrim f.value ≠ "") :
    validateField ns fid =
      if phoneMatch (stripPhone (jsTrim f.value)) then (true, cleanedOf ns fid)
      else (false,
        showFieldError (cleanedOf ns fid) fid "Please enter a valid phone number") := by
  simp only [validateField, h]
  cases hm : phoneMatch (stripPhone (jsTrim f.value))
  · rw [if_neg (by simp [hne]),
      if_neg (by simp [hty, show (("tel":String) == "email") = false from rfl]),
      if_pos (by simp [hty, hne, hm])]
    simp [hm]
  · rw [if_neg (by simp [hne]),
      if_neg (by simp [hty, show (("tel":String) == "email") = false from rfl]),
      if_neg (by simp [hm])]
    simp [hm]

theorem validateField_empty_not_required (ns : List Node) (fid : Nat) (f : FieldEl)
    (h : findField ns fid = some f) (hreq : f.required = false) (hv : jsTrim f.value = "") :
    validateField ns fid = (true, cleanedOf ns fid) := by
  simp only [validateField, h]
  rw [if_neg (by simp [hreq]), if_neg (by simp [hv]), if_neg (by simp [hv])]

/-! ## Claim C5: email rule -/

/-- C5: for a field of declared type "email" with non-empty trimmed
value `v`, validateField reports the field invalid (with message
"Please enter a valid email address") iff `v` does not match
`^[^\s@]+@[^\s@]+\.[^\s@]+$`; an empty non-required email field is
valid. -/
theorem email_validation_rule (ns : List Node) (fid : Nat) (f : FieldEl)
    (h : findField ns fid = some f) (hty : f.ty = "email") :
    (jsTrim f.value ≠ "" →
      (((validateField ns fid).1 = false) ↔ emailMatch (jsTrim f.value) = false) ∧
      (emailMatch (jsTrim f.value) = false →
        (validateField ns fid).2 =
          showFieldError (cleanedOf ns fid) fid "Please enter a valid email address")) ∧
    (jsTrim f.value = "" → f.required = false → (validateField ns fid).1 = true) := by
  constructor
  · intro hne
    rw [validateField_email_branch ns fid f h hty hne]
    cases hm : emailMatch (jsTrim f.value)
    · refine ⟨?_, fun _ => ?_⟩ <;> simp
    · refine ⟨by simp, fun hcontr => ?_⟩
      simp at hcontr
  · intro hv hr
    rw [validateField_empty_not_required ns fid f h hr hv]

/-- Witness for C5 at concrete email fields (one invalid, one valid). -/
theorem email_validation_rule_witness :
    (validateField [Node.fieldN ⟨0, "nope", "email", false, [], ""⟩] 0).1 = false ∧
    (validateField [Node.fieldN ⟨1, "a@b.c", "email", false, [], ""⟩] 1).1 = true := by
  constructor
  · exact ((email_validation_rule [Node.fieldN ⟨0, "nope", "email", false, [], ""⟩] 0
      ⟨0, "nope", "email", false, [], ""⟩ rfl rfl).1 (by decide)).1.mpr (by decide)
  · have h2 := ((email_validation_rule [Node.fieldN ⟨1, "a@b.c", "email", false, [], ""⟩] 1
      ⟨1, "a@b.c", "email", false, [], ""⟩ rfl rfl).1 (by decide)).1
    cases hb : (validateField [Node.fieldN ⟨1, "a@b.c", "email", false, [], ""⟩] 1).1
    · exact absurd (h2.mp hb) (by decide)
    · rfl

/-! ## Claim C6: phone rule -/

/-- C6: for a field of declared type "tel" with non-empty trimmed value
`v`, validateField reports the field invalid (with message "Please enter
a valid phone number") iff `v`, after removing all spaces, hyphens and
parentheses, does not match `^[+]?[1-9][0-9]{0,15}$`. -/
theorem phone_validation_rule (ns : List Node) (fid : Nat) (f : FieldEl)
    (h : findField ns fid = some f) (hty : f.ty = "tel") (hne : jsTrim f.value ≠ "") :
    (((validateField ns fid).1 = false) ↔ phoneMatch (stripPhone (jsTrim f.value)) = false) ∧
    (phoneMatch (stripPhone (jsTrim f.value)) = false →
      (validateField ns fid).2 =
        showFieldError (cleanedOf ns fid) fid "Please enter a valid phone number") := by
  rw [validateField_tel_branch ns fid f h hty hne]
  cases hm : phoneMatch (stripPhone (jsTrim f.value))
  · refine ⟨?_, fun _ => ?_⟩ <;> simp
  · refine ⟨by simp, fun hcontr => ?_⟩
    simp at hcontr

/-- Witness for C6 at concrete tel fields (one invalid, one valid after
stripping separators). -/
theorem phone_validation_rule_witness :
    (validateField [Node.fieldN ⟨0, "0123", "tel", false, [], ""⟩] 0).1 = false ∧
    (validateField [Node.fieldN ⟨1, "(49) 151-23", "tel", false, [], ""⟩] 1).1 = true := by
  constructor
  · exact (phone_validation_rule [Node.fieldN ⟨0, "0123", "tel", false, [], ""⟩] 0
      ⟨0, "0123", "tel", false, [], ""⟩ rfl rfl (by decide)).1.mpr (by decide)
  · have h2 := (phone_validation_rule [Node.fieldN ⟨1, "(49) 151-23", "tel", false, [], ""⟩] 1
      ⟨1, "(49) 151-23", "tel", false, [], ""⟩ rfl rfl (by decide)).1
    cases hb : (validateField [Node.fieldN ⟨1, "(49) 151-23", "tel", false, [], ""⟩] 1).1
    · exact absurd (h2.mp hb) (by decide)
    · rfl

/-! ## Claim C7: error decoration placement -/

/-- C7 (counterexample): `showFieldError` uses `appendChild`, so when a
sibling follows the field inside its parent, the error message lands at
the end of the parent, not immediately after the field: here the node
immediately after the field is still `otherN 7` and the message is the
last child. -/
theorem error_not_inserted_after_field :
    (validateField [Node.fieldN ⟨0, "", "text", true, [], ""⟩, Node.otherN 7] 0).1 = false ∧
    (validateField [Node.fieldN ⟨0, "", "text", true, [], ""⟩, Node.otherN 7] 0).2 =
      [Node.fieldN ⟨0, "", "text", true, ["error"], ""⟩, Node.otherN 7,
       Node.errMsg "This field is required"] := by
  constructor <;> rfl

/-- C7 (amended): for every field that fails validation the
error-message element is appended as the last child of the field's
parent (immediately after the field only when the field is the last
child); each pass first removes the first existing error message, so a
parent holding at most one error message before a pass holds at most one
after it. -/
theorem error_decoration_appended (ns : List Node) (fid : Nat) (f : FieldEl)
    (h : findField ns fid = some f) (hc : countErr ns ≤ 1) :
    ((validateField ns fid).1 = false →
      ∃ msg, (validateField ns fid).2.getLast? = some (Node.errMsg msg)) ∧
    countErr (validateField ns fid).2 ≤ 1 := by
  have hclean : countErr (cleanedOf ns fid) = 0 := countErr_cleanedOf_of_le_one ns fid hc
  rcases validateField_cases ns fid f h with ⟨hv, h2⟩ | ⟨hv, msg, h2⟩
  · constructor
    · intro hfail
      rw [hv] at hfail
      cases hfail
    · rw [h2, hclean]
      omega
  · constructor
    · intro _
      refine ⟨msg, ?_⟩
      rw [h2]
      unfold showFieldError
      exact List.getLast?_concat _
    · rw [h2]
      unfold showFieldError
      rw [countErr_append_errMsg, countErr_updateField, hclean]

/-- Witness for C7's amended theorem at a concrete failing field. -/
theorem error_decoration_appended_witness :
    ∃ msg, (validateField [Node.fieldN ⟨0, "", "text", true, [], ""⟩] 0).2.getLast? =
      some (Node.errMsg msg) :=
  (error_decoration_appended [Node.fieldN ⟨0, "", "text", true, [], ""⟩] 0
    ⟨0, "", "text", true, [], ""⟩ rfl (by decide)).1 (by decide)

/-! ## Claim C10: rule precedence -/

/-- C10: one invocation of validateField inserts at most one
error-message element; when the field is required and its trimmed value
is empty the message is "This field is required" regardless of the
declared type, and the function returns false at that first failing
rule. -/
theorem required_rule_precedence (ns : List Node) (fid : Nat) (f : FieldEl)
    (h : findField ns fid = some f) :
    (f.required = true → jsTrim f.value = "" →
      validateField ns fid =
        (false, showFieldError (cleanedOf ns fid) fid "This field is required")) ∧
    ((validateField ns fid).2 = cleanedOf ns fid ∨
      ∃ msg, (validateField ns fid).2 = showFieldError (cleanedOf ns fid) fid msg) := by
  constructor
  · intro hr hv
    have hb : (jsTrim f.value == "") = true := by simp [hv]
    simp [validateField, h, hr, hb]
  · exact validateField_snd_cases ns fid f h

/-- Witness for C10: a required, empty field of declared type "email"
still gets the required-field message. -/
theorem required_rule_precedence_witness :
    validateField [Node.fieldN ⟨0, "", "email", true, [], ""⟩] 0 =
      (false, [Node.fieldN ⟨0, "", "email", true, ["error"], ""⟩,
               Node.errMsg "This field is required"]) := by
  have h := (required_rule_precedence [Node.fieldN ⟨0, "", "email", true, [], ""⟩] 0
    ⟨0, "", "email", true, [], ""⟩ rfl).1 rfl rfl
  rw [h]
  rfl

/-! ## Identity lemmas for a clean pass over a valid field -/

def fidsOf (ns : List Node) : List Nat := (fieldsOf ns).map FieldEl.fid

theorem findField_removeFirstErr (ns : List Node) (fid : Nat) :
    findField (removeFirstErr ns) fid = findField ns fid := by
  induction ns with
  | nil => rfl
  | cons n rest ih =>
      cases n with
      | fieldN f =>
          rw [show removeFirstErr (Node.fieldN f :: rest) = Node.fieldN f :: removeFirstErr rest
            by simp [removeFirstErr, isErrMsg]]
          by_cases hf : f.fid = fid <;> simp [findField, hf, ih]
      | errMsg m =>
          rw [show removeFirstErr (Node.errMsg m :: rest) = rest by simp [removeFirstErr, isErrMsg]]
          simp [findField]
      | otherN i =>
          rw [show removeFirstErr (Node.otherN i :: rest) = Node.otherN i :: removeFirstErr rest
            by simp [removeFirstErr, isErrMsg]]
          simp [findField, ih]

theorem updateField_noop_of_not_mem (ns : List Node) (fid : Nat) (g : FieldEl → FieldEl)
    (h : fid ∉ fidsOf ns) : updateField ns fid g = ns := by
  induction ns with
  | nil => rfl
  | cons n rest ih =>
      unfold fidsOf fieldsOf at h ih
      cases n with
      | fieldN f =>
          rw [List.filterMap_cons] at h
          simp only [List.map_cons, List.mem_cons] at h
          push_neg at h
          simp [updateField, Ne.symm h.1]
          exact ih h.2
      | errMsg m =>
          rw [List.filterMap_cons] at h
          simp only at h
          simpa [updateField] using ih h
      | otherN i =>
          rw [List.filterMap_cons] at h
          simp only at h
          simpa [updateField] using ih h

theorem updateField_noop (ns : List Node) (fid : Nat) (g : FieldEl → FieldEl) (f : FieldEl)
    (hnd : (fidsOf ns).Nodup) (h : findField ns fid = some f) (hg : g f = f) :
    updateField ns fid g = ns := by
  induction ns with
  | nil => rfl
  | cons n rest ih =>
      cases n with
      | fieldN f0 =>
          unfold fidsOf fieldsOf at hnd
          rw [List.filterMap_cons] at hnd
          simp only [List.map_cons, List.nodup_cons] at hnd
          by_cases hf : f0.fid = fid
          · have hf0 : f0 = f := by
              rw [show findField (Node.fieldN f0 :: rest) fid = some f0 by simp [findField, hf]]
                at h
              exact Option.some.inj h
            have hrest : fid ∉ fidsOf rest := by
              rw [← hf]
              exact hnd.1
            rw [show updateField (Node.fieldN f0 :: rest) fid g =
                Node.fieldN (g f0) :: updateField rest fid g by simp [updateField, hf]]
            rw [updateField_noop_of_not_mem rest fid g hrest, hf0, hg]
          · rw [show findField (Node.fieldN f0 :: rest) fid = findField rest fid by
              simp [findField, hf]] at h
            rw [show updateField (Node.fieldN f0 :: rest) fid g =
                Node.fieldN f0 :: updateField rest fid g by simp [updateField, hf]]
            rw [ih hnd.2 h]
      | errMsg m =>
          unfold fidsOf fieldsOf at hnd
          rw [List.filterMap_cons] at hnd
          simp only at hnd
          rw [show findField (Node.errMsg m :: rest) fid = findField rest fid by simp [findField]]
            at h
          simpa [updateField] using ih hnd h
      | otherN i =>
          unfold fidsOf fieldsOf at hnd
          rw [List.filterMap_cons] at hnd
          simp only at hnd
          rw [show findField (Node.otherN i :: rest) fid = findField rest fid by simp [findField]]
            at h
          simpa [updateField] using ih hnd h

theorem removeFirstErr_of_countErr_zero (ns : List Node) (h : countErr ns = 0) :
    removeFirstErr ns = ns := by
  induction ns with
  | nil => rfl
  | cons n rest ih =>
      rw [countErr_cons] at h
      cases hn : isErrMsg n
      · rw [hn] at h
        simp only [Bool.false_eq_true, if_false, Nat.add_zero] at h
        simp [removeFirstErr, hn, ih h]
      · rw [hn] at h
        simp at h

theorem fidsOf_removeFirstErr (ns : List Node) : fidsOf (removeFirstErr ns) = fidsOf ns := by
  unfold fidsOf
  rw [fieldsOf_removeFirstErr]

/-! ## Claim C8: idempotence on a valid field -/

/-- C8: running validateField on a currently valid, undecorated field
(no "error" class, at most one stray error message in the parent)
reports it valid, leaves no error-message element and no "error" class,
and a second run returns exactly the same verdict and parent state as
the first (validation of a valid field is idempotent). -/
theorem validateField_idempotent (ns : List Node) (fid : Nat) (f : FieldEl)
    (hnd : (fidsOf ns).Nodup) (h : findField ns fid = some f)
    (hv : fieldVerdict f = true) (hcl : "error" ∉ f.classes) (he : countErr ns ≤ 1) :
    (validateField ns fid).1 = true ∧
    countErr (validateField ns fid).2 = 0 ∧
    findField (validateField ns fid).2 fid = some f ∧
    validateField (validateField ns fid).2 fid = validateField ns fid := by
  have hcls : classListRemove f.classes "error" = f.classes := by
    apply List.filter_eq_self.mpr
    intro a ha
    simp only [bne_iff_ne, ne_eq]
    intro e
    exact hcl (e ▸ ha)
  have hgf : ({ f with classes := classListRemove f.classes "error" } : FieldEl) = f := by
    rw [hcls]
  have hupd : updateField ns fid
      (fun g => { g with classes := classListRemove g.classes "error" }) = ns :=
    updateField_noop ns fid _ f hnd h hgf
  have h1 : cleanedOf ns fid = removeFirstErr ns := by
    unfold cleanedOf
    rw [hupd]
  have hv1 : (validateField ns fid).1 = true := by
    rw [validateField_fst ns fid f h, hv]
  rcases validateField_cases ns fid f h with ⟨_, h2⟩ | ⟨hfalse, _, _⟩
  · rw [h1] at h2
    have hc0 : countErr (removeFirstErr ns) = 0 := countErr_removeFirstErr_of_le_one ns he
    have hff : findField (removeFirstErr ns) fid = some f := by
      rw [findField_removeFirstErr, h]
    have hnd2 : (fidsOf (removeFirstErr ns)).Nodup := by
      rw [fidsOf_removeFirstErr]
      exact hnd
    have hupd2 : updateField (removeFirstErr ns) fid
        (fun g => { g with classes := classListRemove g.classes "error" }) = removeFirstErr ns :=
      updateField_noop _ fid _ f hnd2 hff hgf
    have h3 : cleanedOf (removeFirstErr ns) fid = removeFirstErr ns := by
      unfold cleanedOf
      rw [hupd2]
      exact removeFirstErr_of_countErr_zero _ hc0
    have hv2 : (validateField (removeFirstErr ns) fid).1 = true := by
      rw [validateField_fst _ fid f hff, hv]
    rcases validateField_cases (removeFirstErr ns) fid f hff with ⟨_, h4⟩ | ⟨hfalse2, _, _⟩
    · refine ⟨hv1, by rw [h2]; exact hc0, by rw [h2]; exact hff, ?_⟩
      rw [h2]
      have hL : validateField (removeFirstErr ns) fid = (true, removeFirstErr ns) := by
        rw [h3] at h4
        exact Prod.ext hv2 h4
      have hR : validateField ns fid = (true, removeFirstErr ns) := Prod.ext hv1 h2
      rw [hL, hR]
    · rw [hv2] at hfalse2
      cases hfalse2
  · rw [hv1] at hfalse
    cases hfalse

/-- Witness for C8 at a concrete valid field. -/
theorem validateField_idempotent_witness :
    (validateField [Node.fieldN ⟨0, "x", "text", false, [], ""⟩] 0).1 = true ∧
    validateField (validateField [Node.fieldN ⟨0, "x", "text", false, [], ""⟩] 0).2 0 =
      validateField [Node.fieldN ⟨0, "x", "text", false, [], ""⟩] 0 := by
  have h := validateField_idempotent [Node.fieldN ⟨0, "x", "text", false, [], ""⟩] 0
    ⟨0, "x", "text", false, [], ""⟩ (by decide) rfl (by decide) (by decide) (by decide)
  exact ⟨h.1, h.2.2.2⟩

/-! ## Form-level lemmas for claim C3 -/

def formCores (cs : List FormChild) : List FieldEl := (formFields cs).map coreOfF

theorem find?_append_some {α : Type} (p : α → Bool) {l1 : List α} (l2 : List α) {a : α}
    (h : l1.find? p = some a) : (l1 ++ l2).find? p = some a := by
  induction l1 with
  | nil => cases h
  | cons b t ih =>
      cases hp : p b
      · rw [List.find?_cons_of_neg _ (by simp [hp])] at h
        rw [List.cons_append, List.find?_cons_of_neg _ (by simp [hp])]
        exact ih h
      · rw [List.find?_cons_of_pos _ hp] at h
        rw [List.cons_append, List.find?_cons_of_pos _ hp]
        exact h

theorem find?_append_none {α : Type} (p : α → Bool) {l1 : List α} (l2 : List α)
    (h : l1.find? p = none) : (l1 ++ l2).find? p = l2.find? p := by
  induction l1 with
  | nil => rfl
  | cons b t ih =>
      cases hp : p b
      · rw [List.find?_cons_of_neg _ (by simp [hp])] at h
        rw [List.cons_append, List.find?_cons_of_neg _ (by simp [hp])]
        exact ih h
      · rw [List.find?_cons_of_pos _ hp] at h
        cases h

/-- The verdict `formValidateField` returns is the pure verdict of the
field it located. -/
theorem formValidateField_fst (cs : List FormChild) (fid : Nat) :
    (formValidateField cs fid).1 =
      (match (formFields cs).find? (fun g => g.fid == fid) with
        | some g => fieldVerdict g
        | none => true) := by
  induction cs with
  | nil => rfl
  | cons c rest ih =>
      cases c with
      | banner =>
          simp only [formValidateField, formFields, List.flatMap_cons, List.nil_append]
          exact ih
      | group ns =>
          cases hfind : findField ns fid with
          | some g =>
              have hsome : (findField ns fid).isSome = true := by rw [hfind]; rfl
              have hfg : (fieldsOf ns).find? (fun g => g.fid == fid) = some g := by
                rw [← findField_eq_find?, hfind]
              simp only [formValidateField, hsome, if_true, formFields, List.flatMap_cons]
              rw [find?_append_some _ _ hfg]
              exact validateField_fst ns fid g hfind
          | none =>
              have hsome : (findField ns fid).isSome = false := by rw [hfind]; rfl
              have hfg : (fieldsOf ns).find? (fun g => g.fid == fid) = none := by
                rw [← findField_eq_find?, hfind]
              simp only [formValidateField, hsome, Bool.false_eq_true, if_false, formFields,
                List.flatMap_cons]
              rw [find?_append_none _ _ hfg]
              exact ih

theorem formCores_formValidateField (cs : List FormChild) (fid : Nat) :
    formCores (formValidateField cs fid).2 = formCores cs := by
  induction cs with
  | nil => rfl
  | cons c rest ih =>
      cases c with
      | banner =>
          simp only [formValidateField, formCores, formFields, List.flatMap_cons,
            List.nil_append]
          exact ih
      | group ns =>
          cases hsome : (findField ns fid).isSome
          · simp only [formValidateField, hsome, Bool.false_eq_true, if_false, formCores,
              formFields, List.flatMap_cons, List.map_append]
            unfold formCores formFields at ih
            rw [ih]
          · simp only [formValidateField, hsome, if_true, formCores, formFields,
              List.flatMap_cons, List.map_append]
            have := coresOf_validateField ns fid
            unfold coresOf at this
            rw [this]

theorem bannerCount_formValidateField (cs : List FormChild) (fid : Nat) :
    bannerCount (formValidateField cs fid).2 = bannerCount cs := by
  induction cs with
  | nil => rfl
  | cons c rest ih =>
      cases c with
      | banner =>
          simp only [formValidateField]
          unfold bannerCount
          rw [List.countP_cons, List.countP_cons]
          unfold bannerCount at ih
          rw [ih]
      | group ns =>
          cases hsome : (findField ns fid).isSome
          · simp only [formValidateField, hsome, Bool.false_eq_true, if_false]
            unfold bannerCount
            rw [List.countP_cons, List.countP_cons]
            unfold bannerCount at ih
            rw [ih]
          · simp only [formValidateField, hsome, if_true]
            unfold bannerCount
            rw [List.countP_cons, List.countP_cons]
            simp [isBanner]

/-- The `validateForm` loop: the accumulated boolean is the conjunction
of the pure verdicts of the visited fields, and neither field cores nor
banners change. -/
theorem validateForm_loop (cs0 : List FormChild)
    (hnd : ((formFields cs0).map FieldEl.fid).Nodup) :
    ∀ (fs : List FieldEl) (b : Bool) (cs : List FormChild),
      formCores cs = formCores cs0 →
      (∀ f ∈ fs, f ∈ formFields cs0) →
      (fs.foldl (fun acc f =>
        let r := formValidateField acc.2 f.fid
        (acc.1 && r.1, r.2)) (b, cs)).1 = (b && fs.all fieldVerdict) ∧
      formCores (fs.foldl (fun acc f =>
        let r := formValidateField acc.2 f.fid
        (acc.1 && r.1, r.2)) (b, cs)).2 = formCores cs0 ∧
      bannerCount (fs.foldl (fun acc f =>
        let r := formValidateField acc.2 f.fid
        (acc.1 && r.1, r.2)) (b, cs)).2 = bannerCount cs := by
  intro fs
  induction fs with
  | nil =>
      intro b cs hcores _
      refine ⟨by simp, hcores, rfl⟩
  | cons f fs ih =>
      intro b cs hcores hmem
      have hf0 : f ∈ formFields cs0 := hmem f (List.mem_cons_self f fs)
      have hfind0 : (formFields cs0).find? (fun g => g.fid == f.fid) = some f :=
        nodup_find?_self hnd hf0
      have hcongr := find?_core_congr (by exact hcores : (formFields cs).map coreOfF =
        (formFields cs0).map coreOfF) f.fid
      rw [hfind0] at hcongr
      obtain ⟨f', hf'eq, hf'core⟩ :
          ∃ f', (formFields cs).find? (fun g => g.fid == f.fid) = some f' ∧
            coreOfF f' = coreOfF f := by
        cases hcase : (formFields cs).find? (fun g => g.fid == f.fid) with
        | none => rw [hcase] at hcongr; cases hcongr
        | some g =>
            rw [hcase] at hcongr
            exact ⟨g, rfl, Option.some.inj hcongr⟩
      have hr1 : (formValidateField cs f.fid).1 = fieldVerdict f := by
        rw [formValidateField_fst, hf'eq]
        show fieldVerdict f' = fieldVerdict f
        rw [← fieldVerdict_coreOfF f', hf'core, fieldVerdict_coreOfF]
      have hrc : formCores (formValidateField cs f.fid).2 = formCores cs0 := by
        rw [formCores_formValidateField]
        exact hcores
      have hrb : bannerCount (formValidateField cs f.fid).2 = bannerCount cs :=
        bannerCount_formValidateField cs f.fid
      have hmem' : ∀ g ∈ fs, g ∈ formFields cs0 := fun g hg => hmem g (List.mem_cons_of_mem f hg)
      obtain ⟨ih1, ih2, ih3⟩ := ih (b && (formValidateField cs f.fid).1)
        (formValidateField cs f.fid).2 hrc hmem'
      refine ⟨?_, ih2, ?_⟩
      · rw [List.foldl_cons, ih1, hr1, List.all_cons, Bool.and_assoc]
      · rw [List.foldl_cons, ih3, hrb]

/-- `validateForm` returns the conjunction of every field's pure
verdict and changes no banner. -/
theorem validateForm_spec (cs : List FormChild)
    (hnd : ((formFields cs).map FieldEl.fid).Nodup) :
    (validateForm cs).1 = (formFields cs).all fieldVerdict ∧
    bannerCount (validateForm cs).2 = bannerCount cs := by
  obtain ⟨h1, _, h3⟩ := validateForm_loop cs hnd (formFields cs) true cs rfl (fun _ hf => hf)
  exact ⟨by rw [validateForm, h1, Bool.true_and], by rw [validateForm, h3]⟩

/-! ## Reset and banner-removal lemmas -/

theorem fieldsOf_resetGroup (ns : List Node) :
    fieldsOf (resetGroup ns) = (fieldsOf ns).map (fun f => { f with value := f.defaultValue }) := by
  induction ns with
  | nil => rfl
  | cons n rest ih =>
      cases n <;> simp [resetGroup, fieldsOf, List.filterMap_cons] <;>
        simpa [resetGroup, fieldsOf] using ih

theorem formFields_formReset (cs : List FormChild) :
    formFields (formReset cs) =
      (formFields cs).map (fun f => { f with value := f.defaultValue }) := by
  induction cs with
  | nil => rfl
  | cons c rest ih =>
      cases c with
      | banner =>
          have h1 : formReset (FormChild.banner :: rest) =
              FormChild.banner :: formReset rest := rfl
          have h2 : formFields (FormChild.banner :: formReset rest) =
              formFields (formReset rest) := rfl
          have h3 : formFields (FormChild.banner :: rest) = formFields rest := rfl
          rw [h1, h2, ih, h3]
      | group ns =>
          have h1 : formReset (FormChild.group ns :: rest) =
              FormChild.group (resetGroup ns) :: formReset rest := rfl
          have h2 : formFields (FormChild.group (resetGroup ns) :: formReset rest) =
              fieldsOf (resetGroup ns) ++ formFields (formReset rest) := rfl
          have h3 : formFields (FormChild.group ns :: rest) =
              fieldsOf ns ++ formFields rest := rfl
          rw [h1, h2, ih, fieldsOf_resetGroup, h3, List.map_append]

theorem bannerCount_formReset (cs : List FormChild) :
    bannerCount (formReset cs) = bannerCount cs := by
  induction cs with
  | nil => rfl
  | cons c rest ih =>
      cases c <;>
        · unfold bannerCount formReset at *
          rw [List.map_cons, List.countP_cons, List.countP_cons, ih]
          try simp [isBanner]

theorem formTimerFire_banner_cons (cs : List FormChild) :
    formTimerFire (FormChild.banner :: cs) = formReset cs := by
  unfold formTimerFire formReset
  rw [List.map_cons]
  rfl

/-- Whether the form's first child is the success banner. -/
def headIsBanner : List FormChild → Bool
  | FormChild.banner :: _ => true
  | _ => false

/-- A form whose children hold no banner does not start with one. -/
theorem headIsBanner_of_no_banner (cs : List FormChild) (h : bannerCount cs = 0) :
    headIsBanner cs = false := by
  cases cs with
  | nil => rfl
  | cons c rest =>
      cases c with
      | banner =>
          unfold bannerCount at h
          rw [List.countP_cons] at h
          simp [isBanner] at h
      | group ns => rfl

/-! ## Claim C3: form submission -/

/-- C3: every submit prevents the default submission (no network call);
a success banner becomes the first child of the form iff every contained
field individually validates; and when it does, the 3000 ms timer resets
every field to its default value and removes the banner. -/
theorem form_submit_behavior (cs : List FormChild)
    (hnd : ((formFields cs).map FieldEl.fid).Nodup)
    (hb : bannerCount cs = 0) :
    (formSubmit cs).defaultPrevented = true ∧
    (headIsBanner (formSubmit cs).children = true ↔ (formFields cs).all fieldVerdict = true) ∧
    ((formFields cs).all fieldVerdict = true →
      (formSubmit cs).timerScheduled = true ∧
      (∀ f ∈ formFields (formTimerFire (formSubmit cs).children), f.value = f.defaultValue) ∧
      bannerCount (formTimerFire (formSubmit cs).children) = 0) := by
  obtain ⟨hval, hban⟩ := validateForm_spec cs hnd
  cases hall : (formFields cs).all fieldVerdict
  · have hs : formSubmit cs = ⟨(validateForm cs).2, true, false⟩ := by
      simp only [formSubmit]
      rw [hval, hall]
      rfl
    have hch : (formSubmit cs).children = (validateForm cs).2 := by rw [hs]
    have hdp : (formSubmit cs).defaultPrevented = true := by rw [hs]
    refine ⟨hdp, ?_, ?_⟩
    · rw [hch, headIsBanner_of_no_banner (validateForm cs).2 (by rw [hban, hb])]
    · intro hcontr
      cases hcontr
  · have hs : formSubmit cs = ⟨FormChild.banner :: (validateForm cs).2, true, true⟩ := by
      simp only [formSubmit]
      rw [hval, hall]
      simp [showFormSuccess]
    have hch : (formSubmit cs).children = FormChild.banner :: (validateForm cs).2 := by rw [hs]
    have hdp : (formSubmit cs).defaultPrevented = true := by rw [hs]
    have hts : (formSubmit cs).timerScheduled = true := by rw [hs]
    refine ⟨hdp, by rw [hch]; simp [headIsBanner], fun _ => ⟨hts, ?_, ?_⟩⟩
    · intro f hf
      rw [hch] at hf
      simp only [formTimerFire_banner_cons, formFields_formReset, List.mem_map] at hf
      obtain ⟨g, _, hg⟩ := hf
      rw [← hg]
    · rw [hch, formTimerFire_banner_cons, bannerCount_formReset, hban, hb]

/-- Witness for C3 at a concrete one-field valid form. -/
theorem form_submit_behavior_witness :
    (formSubmit [FormChild.group [Node.fieldN ⟨0, "hi", "text", true, [], ""⟩]]).defaultPrevented
        = true ∧
    headIsBanner
      (formSubmit [FormChild.group [Node.fieldN ⟨0, "hi", "text", true, [], ""⟩]]).children
        = true ∧
    bannerCount (formTimerFire
      (formSubmit [FormChild.group [Node.fieldN ⟨0, "hi", "text", true, [], ""⟩]]).children)
        = 0 := by
  have h := form_submit_behavior [FormChild.group [Node.fieldN ⟨0, "hi", "text", true, [], ""⟩]]
    (by decide) (by decide)
  exact ⟨h.1, h.2.1.mpr (by decide), (h.2.2 (by decide)).2.2⟩

end DoctorConnect
